import Mathlib

/-!
# QBTM runtime: a shallow embedding in Lean 4, with verified claims

This development embeds the core of the QBTM (Quantum Block Type Morphisms)
runtime: the canonical Value model with its byte encoding and QGID digest,
the Gaussian-rational matrix layer, the content-addressed store, the circuit
interpreter, and the `.qmb` binary container with its Runner.

Conventions of the embedding:
* Go `big.Rat` is modelled by Lean's `Rat` (both keep fractions in lowest
  terms with a positive denominator); Go `big.Int` by `Int`.
* Byte strings are `List Nat` (each entry morally < 256; the encoders only
  emit values < 256).
* Go functions returning `(T, error)` are modelled with `Except String T`;
  functions returning `(T, bool)` keep the pair.
* A Go `*Matrix` that may be nil is `Option Matrix`; `none` is the nil
  pointer.  Dereferencing nil (a Go runtime panic) is modelled by an
  explicit `panics` outcome.
* Go maps are association lists with assignment-replaces-existing-key
  semantics.
-/

namespace QBTM

/-! ## Gaussian rationals (runtime arithmetic layer, `QI`) -/

/-- A Gaussian rational `a + b·i` with `a, b : ℚ`. -/
structure QI where
  re : Rat
  im : Rat
deriving DecidableEq, Repr

def QIZero : QI := ⟨0, 0⟩

def QIOne : QI := ⟨1, 0⟩

def QII : QI := ⟨0, 1⟩

def QINeg (q : QI) : QI := ⟨-q.re, -q.im⟩

def QIAdd (a b : QI) : QI := ⟨a.re + b.re, a.im + b.im⟩

def QISub (a b : QI) : QI := ⟨a.re - b.re, a.im - b.im⟩

/-- Product: `(a + bi)(c + di) = (ac - bd) + (ad + bc)i`. -/
def QIMul (a b : QI) : QI :=
  ⟨a.re * b.re - a.im * b.im, a.re * b.im + a.im * b.re⟩

def QIConj (q : QI) : QI := ⟨q.re, -q.im⟩

/-- Squared norm `|q|² = re² + im²`, a rational. -/
def QINormSq (q : QI) : Rat := q.re * q.re + q.im * q.im

/-- Inverse `1/q = conj(q)/|q|²`; the boolean is `false` when the norm is zero
(the Go source returns `(QIZero(), false)` in that case). -/
def QIInv (q : QI) : QI × Bool :=
  let normSq := QINormSq q
  if normSq = 0 then (QIZero, false)
  else (⟨(QIConj q).re / normSq, (QIConj q).im / normSq⟩, true)

def QIDiv (a b : QI) : QI × Bool :=
  let inv := QIInv b
  if inv.2 = false then (QIZero, false) else (QIMul a inv.1, true)

def QIEqual (a b : QI) : Bool := a.re == b.re && a.im == b.im

def QIIsZero (q : QI) : Bool := q.re == 0 && q.im == 0

def QIScale (q : QI) (r : Rat) : QI := ⟨q.re * r, q.im * r⟩

/-! ## Matrices over Gaussian rationals

`Rows`/`Cols` are Go `int` (modelled by `Int`).  A `for i := 0; i < n`
loop iterates `n.toNat` times, which also matches Go when `n` is negative
(zero iterations).  Well-formed matrices satisfy `data.length = rows·cols`;
the runtime's constructors establish this and `MatrixFromValue` preserves it. -/

structure Matrix where
  rows : Int
  cols : Int
  data : List QI
deriving DecidableEq, Repr

/-- The construction invariant of §3: the data array has `rows·cols` entries
(as allocated by Go's `make`) and the shape is non-negative. -/
def Matrix.WF (m : Matrix) : Prop :=
  0 ≤ m.rows ∧ 0 ≤ m.cols ∧ m.data.length = (m.rows * m.cols).toNat

instance (m : Matrix) : Decidable m.WF := by unfold Matrix.WF; infer_instance

/-- Flat read `m.Data[i*m.Cols+j]`.  Go panics when the flat index is out of range;
the interpreter only reaches this with in-range indices (the one exception,
the Choi case, does its own explicit range analysis before reading). -/
def Matrix.get (m : Matrix) (i j : Int) : QI :=
  m.data.getD (i * m.cols + j).toNat QIZero

/-- Function `NewMatrix` allocates a `rows × cols` all-zero matrix.  (Go's
`make([]QI, n)` panics for `n < 0`; the runtime only calls `NewMatrix`
with non-negative products, where the two agree.) -/
def NewMatrix (rows cols : Int) : Matrix :=
  ⟨rows, cols, List.replicate (rows * cols).toNat QIZero⟩

/-- Row-major construction helper: entry `(i, j)` is `f i j`.  This is how
each Go loop nest `for i { for j { C.Set(i, j, …) } }` over a fresh
`NewMatrix` is rendered. -/
def mkMat (rows cols : Int) (f : Nat → Nat → QI) : Matrix :=
  ⟨rows, cols,
    (List.range (rows * cols).toNat).map
      (fun idx => f (idx / cols.toNat) (idx % cols.toNat))⟩

def Identity (n : Int) : Matrix :=
  mkMat n n (fun i j => if i = j then QIOne else QIZero)

/-- Go's running-sum loop `sum := QIZero(); for k { sum = QIAdd(sum, …) }`. -/
def qiSum (n : Nat) (f : Nat → QI) : QI :=
  (List.range n).foldl (fun acc k => QIAdd acc (f k)) QIZero

/-- Function `MatMul` returns `nil` (here `none`) when the inner dimensions differ. -/
def MatMul (A B : Matrix) : Option Matrix :=
  if A.cols ≠ B.rows then none
  else some (mkMat A.rows B.cols
    (fun i j => qiSum A.cols.toNat (fun k => QIMul (A.get i k) (B.get k j))))

/-- Function `MatAdd` returns `nil` when the shapes differ. -/
def MatAdd (A B : Matrix) : Option Matrix :=
  if A.rows ≠ B.rows ∨ A.cols ≠ B.cols then none
  else some ⟨A.rows, A.cols, (A.data.zip B.data).map (fun p => QIAdd p.1 p.2)⟩

def MatScale (A : Matrix) (r : Rat) : Matrix :=
  ⟨A.rows, A.cols, A.data.map (fun q => QIScale q r)⟩

/-- Conjugate transpose: `B[j,i] = conj(A[i,j])`. -/
def Dagger (A : Matrix) : Matrix :=
  mkMat A.cols A.rows (fun j i => QIConj (A.get i j))

/-- Function `Trace` returns zero for non-square shapes (the Go source does). -/
def Trace (A : Matrix) : QI :=
  if A.rows ≠ A.cols then QIZero
  else qiSum A.rows.toNat (fun i => A.get i i)

/-- Kronecker product: entry `(i·B.rows+k, j·B.cols+l) = A[i,j]·B[k,l]`. -/
def Kronecker (A B : Matrix) : Matrix :=
  mkMat (A.rows * B.rows) (A.cols * B.cols)
    (fun r c => QIMul (A.get (r / B.rows.toNat) (c / B.cols.toNat))
                      (B.get (r % B.rows.toNat) (c % B.cols.toNat)))

def MatrixEqual (A B : Matrix) : Bool :=
  if A.rows ≠ B.rows ∨ A.cols ≠ B.cols then false
  else (A.data.zip B.data).all (fun p => QIEqual p.1 p.2)

/-- Method `Clone` copies into a fresh `rows·cols` buffer; for matrices with the
data-length invariant (the only ones the runtime clones) the copy carries
exactly the same entries. -/
def Matrix.clone (m : Matrix) : Matrix := ⟨m.rows, m.cols, m.data⟩

/-! ## The Value model and its canonical byte encoding -/

/-- The closed sum of qmb value variants.  `text` carries the UTF-8 bytes of
the Go string; `bytes` a raw byte sequence. -/
inductive Value where
  | int (n : Int)
  | rat (q : Rat)
  | bytes (bs : List Nat)
  | text (bs : List Nat)
  | seq (items : List Value)
  | tag (label payload : Value)
  | bool (b : Bool)
  | nil
deriving Repr

/-- Big-endian magnitude bytes without leading zeros (`big.Int.Bytes`);
zero gives the empty list. -/
def natBytesBE (n : Nat) : List Nat :=
  if n = 0 then []
  else natBytesBE (n / 256) ++ [n % 256]
decreasing_by exact Nat.div_lt_self (Nat.pos_of_ne_zero (by assumption)) (by omega)

/-- Little-endian base-128 varint with continuation bit. -/
def encodeVarint (n : Nat) : List Nat :=
  if n < 128 then [n]
  else (n % 128 + 128) :: encodeVarint (n / 128)
decreasing_by exact Nat.div_lt_self (by omega) (by omega)

/-- Integer encoding: `0x00` for zero, the byte itself for `1..127`,
otherwise a `0x40`/`0x80` sign marker, a length byte, and the big-endian
magnitude.  (`byte(len(bytes))` truncates mod 256.) -/
def encodeInt (n : Int) : List Nat :=
  if n = 0 then [0]
  else if 0 < n ∧ n ≤ 127 then [n.toNat]
  else
    let mag := natBytesBE n.natAbs
    (if n < 0 then 128 else 64) :: (mag.length % 256) :: mag

/-- Rational encoding: `0x90 0x00` for zero, otherwise `0x90`, a sign byte,
and length-prefixed numerator and denominator magnitudes.  `Rat` is always
in lowest terms with positive denominator, matching `big.Rat`. -/
def encodeRat (q : Rat) : List Nat :=
  if q = 0 then [144, 0]
  else
    let numB := natBytesBE q.num.natAbs
    let denB := natBytesBE q.den
    144 :: (if q < 0 then 128 else 0) ::
      ((numB.length % 256) :: numB ++ (denB.length % 256) :: denB)

mutual

/-- The canonical byte encoding of a Value (the `Encode` methods). -/
def encodeValue : Value → List Nat
  | .int n => encodeInt n
  | .rat q => encodeRat q
  | .bytes bs => 160 :: (encodeVarint bs.length ++ bs)
  | .text bs => 176 :: (encodeVarint bs.length ++ bs)
  | .seq items => 192 :: (encodeVarint items.length ++ encodeValueList items)
  | .tag l p => 208 :: (encodeValue l ++ encodeValue p)
  | .bool b => if b then [225] else [224]
  | .nil => [240]

def encodeValueList : List Value → List Nat
  | [] => []
  | v :: vs => encodeValue v ++ encodeValueList vs

end

mutual

/-- Structural equality of Values (the `Equal` function): same variant and
equal components; `Int`/`Rat` compare by value. -/
def valueEqual : Value → Value → Bool
  | .int a, .int b => a == b
  | .rat a, .rat b => a == b
  | .bytes a, .bytes b => a == b
  | .text a, .text b => a == b
  | .seq a, .seq b => valueListEqual a b
  | .tag l p, .tag l2 p2 => valueEqual l l2 && valueEqual p p2
  | .bool a, .bool b => a == b
  | .nil, .nil => true
  | _, _ => false

def valueListEqual : List Value → List Value → Bool
  | [], [] => true
  | x :: xs, y :: ys => valueEqual x y && valueListEqual xs ys
  | _, _ => false

end

/-! ## SHA-256 (the digest behind QGID)

A word-for-word executable rendering of FIPS 180-4 over `Nat` with explicit
`% 2^32` reductions, standing in for Go's `crypto/sha256`. -/

def w32 (n : Nat) : Nat := n % 4294967296

def rotr32 (x n : Nat) : Nat := w32 ((x >>> n) ||| (x <<< (32 - n)))

def shaK : List Nat :=
  [1116352408, 1899447441, 3049323471, 3921009573, 961987163, 1508970993,
   2453635748, 2870763221, 3624381080, 310598401, 607225278, 1426881987,
   1925078388, 2162078206, 2614888103, 3248222580, 3835390401, 4022224774,
   264347078, 604807628, 770255983, 1249150122, 1555081692, 1996064986,
   2554220882, 2821834349, 2952996808, 3210313671, 3336571891, 3584528711,
   113926993, 338241895, 666307205, 773529912, 1294757372, 1396182291,
   1695183700, 1986661051, 2177026350, 2456956037, 2730485921, 2820302411,
   3259730800, 3345764771, 3516065817, 3600352804, 4094571909, 275423344,
   430227734, 506948616, 659060556, 883997877, 958139571, 1322822218,
   1537002063, 1747873779, 1955562222, 2024104815, 2227730452, 2361852424,
   2428436474, 2756734187, 3204031479, 3329325298]

def shaH0 : List Nat :=
  [1779033703, 3144134277, 1013904242, 2773480762,
   1359893119, 2600822924, 528734635, 1541459225]

/-- Pad the message: append `0x80`, zeros to 56 mod 64, then the bit length
as 8 big-endian bytes. -/
def shaPad (msg : List Nat) : List Nat :=
  let padLen := (55 + 64 - msg.length % 64) % 64 + 1
  let bitLen := msg.length * 8
  msg ++ (128 :: List.replicate (padLen - 1) 0) ++
    [bitLen >>> 56 % 256, bitLen >>> 48 % 256, bitLen >>> 40 % 256,
     bitLen >>> 32 % 256, bitLen >>> 24 % 256, bitLen >>> 16 % 256,
     bitLen >>> 8 % 256, bitLen % 256]

def chunks64 (l : List Nat) : List (List Nat) :=
  if h : l = [] then []
  else l.take 64 :: chunks64 (l.drop 64)
termination_by l.length
decreasing_by
  have h1 : (l.drop 64).length = l.length - 64 := List.length_drop 64 l
  have h2 : 0 < l.length := List.length_pos.mpr h
  omega

/-- The 16 big-endian 32-bit words of a 64-byte block. -/
def blockWords (b : List Nat) : List Nat :=
  (List.range 16).map (fun i =>
    b.getD (4 * i) 0 * 16777216 + b.getD (4 * i + 1) 0 * 65536 +
    b.getD (4 * i + 2) 0 * 256 + b.getD (4 * i + 3) 0)

/-- Message-schedule extension to 64 words. -/
def extendWords (w : List Nat) : List Nat :=
  (List.range 48).foldl
    (fun w _ =>
      let n := w.length
      let s0 := (rotr32 (w.getD (n - 15) 0) 7) ^^^ (rotr32 (w.getD (n - 15) 0) 18) ^^^
                ((w.getD (n - 15) 0) >>> 3)
      let s1 := (rotr32 (w.getD (n - 2) 0) 17) ^^^ (rotr32 (w.getD (n - 2) 0) 19) ^^^
                ((w.getD (n - 2) 0) >>> 10)
      w ++ [w32 (w.getD (n - 16) 0 + s0 + w.getD (n - 7) 0 + s1)])
    w

/-- One compression round over the eight working variables. -/
def shaRound (st : List Nat) (kw : Nat × Nat) : List Nat :=
  let a := st.getD 0 0
  let b := st.getD 1 0
  let c := st.getD 2 0
  let d := st.getD 3 0
  let e := st.getD 4 0
  let f := st.getD 5 0
  let g := st.getD 6 0
  let h := st.getD 7 0
  let S1 := (rotr32 e 6) ^^^ (rotr32 e 11) ^^^ (rotr32 e 25)
  let ch := (e &&& f) ^^^ ((4294967295 - e) &&& g)
  let t1 := w32 (h + S1 + ch + kw.1 + kw.2)
  let S0 := (rotr32 a 2) ^^^ (rotr32 a 13) ^^^ (rotr32 a 22)
  let mj := (a &&& b) ^^^ (a &&& c) ^^^ (b &&& c)
  let t2 := w32 (S0 + mj)
  [w32 (t1 + t2), a, b, c, w32 (d + t1), e, f, g]

def shaCompress (h : List Nat) (block : List Nat) : List Nat :=
  let w := extendWords (blockWords block)
  let st := (shaK.zip w).foldl shaRound h
  (h.zip st).map (fun p => w32 (p.1 + p.2))

/-- SHA-256 of a byte string, as 32 bytes. -/
def sha256 (msg : List Nat) : List Nat :=
  let hs := (chunks64 (shaPad msg)).foldl shaCompress shaH0
  hs.foldr (fun word acc =>
    (word >>> 24 % 256) :: (word >>> 16 % 256) :: (word >>> 8 % 256) ::
    (word % 256) :: acc) []

/-- Digest `QGID(v) = sha256(v.Encode())`. -/
def QGID (v : Value) : List Nat := sha256 (encodeValue v)

/-! ## Objects, primitives, circuits -/

/-- A block signature: the ordered list of block sizes (Go `[]uint32`). -/
structure Object where
  blocks : List Nat
deriving DecidableEq, Repr

/-- The 24 primitive tags, in declaration (= ordinal) order. -/
inductive Prim where
  | id | compose | tensor | swap | bisum | inject | project | copy
  | delete | encode | decode | discard | trace | choi | kraus | unitary
  | instrument | branch | prepare | add | scale | zero | assert | witness
deriving DecidableEq, Repr

/-- The stable ordinal of each primitive (Go `iota`). -/
def Prim.toInt : Prim → Int
  | .id => 0 | .compose => 1 | .tensor => 2 | .swap => 3 | .bisum => 4
  | .inject => 5 | .project => 6 | .copy => 7 | .delete => 8 | .encode => 9
  | .decode => 10 | .discard => 11 | .trace => 12 | .choi => 13 | .kraus => 14
  | .unitary => 15 | .instrument => 16 | .branch => 17 | .prepare => 18
  | .add => 19 | .scale => 20 | .zero => 21 | .assert => 22 | .witness => 23

/-- A 32-byte QGID digest, as bytes. -/
abbrev Digest := List Nat

/-- A circuit node.  A Go `Data` field that is a nil interface behaves, in
every consumer (`CircuitToValue`, the `Rat`/matrix assertions), exactly like
`MakeNil()`, so it is modelled as `Value.nil`. -/
structure Circuit where
  domain : Object
  codomain : Object
  prim : Prim
  data : Value
  children : List Digest

/-- Dimension `objectDim`: 1 for the empty block list, otherwise `Σ n²` (the `n*n`
product is a `uint32` multiply, hence the explicit wrap). -/
def objectDim (obj : Object) : Nat :=
  if obj.blocks = [] then 1
  else obj.blocks.foldl (fun d n => d + n * n % 4294967296) 0

def ObjectToValue (obj : Object) : Value :=
  .tag (.text [111, 98, 106, 101, 99, 116])  -- "object"
    (.seq (obj.blocks.map (fun n => .int n)))

/-- Encoding `Tag("circuit", Seq[domain, codomain, Int(prim), data, Seq(children)])`. -/
def CircuitToValue (c : Circuit) : Value :=
  .tag (.text [99, 105, 114, 99, 117, 105, 116])  -- "circuit"
    (.seq [ObjectToValue c.domain, ObjectToValue c.codomain,
           .int c.prim.toInt, c.data,
           .seq (c.children.map (fun id => .bytes id))])

/-! ## The content-addressed store

Go maps are modelled as association lists where assignment replaces an
existing key and otherwise appends. -/

def mapPut {K V : Type} [DecidableEq K] (m : List (K × V)) (k : K) (v : V) :
    List (K × V) :=
  if m.any (fun p => p.1 = k) then m.map (fun p => if p.1 = k then (k, v) else p)
  else m ++ [(k, v)]

def mapGet {K V : Type} [DecidableEq K] (m : List (K × V)) (k : K) : Option V :=
  (m.find? (fun p => p.1 = k)).map (fun p => p.2)

structure Store where
  circuits : List (Digest × Circuit)
  values : List (Digest × Value)

def emptyStore : Store := ⟨[], []⟩

/-- Lookup `Store.Get`. -/
def Store.get (s : Store) (id : Digest) : Option Circuit := mapGet s.circuits id

/-- Insertion `Store.Put`: canonicalize as a Value, hash, insert into both maps. -/
def Store.put (s : Store) (c : Circuit) : Digest × Store :=
  let v := CircuitToValue c
  let id := QGID v
  (id, ⟨mapPut s.circuits id c, mapPut s.values id v⟩)

def Store.getValue (s : Store) (id : Digest) : Option Value := mapGet s.values id

/-- Insertion `Store.PutValue`. -/
def Store.putValue (s : Store) (v : Value) : Digest × Store :=
  let id := QGID v
  (id, ⟨s.circuits, mapPut s.values id v⟩)

/-! ## Matrix-as-Value parsing (`MatrixFromValue`) -/

/-- Parser `qiFromValue` parses `Tag("qi", Seq[Rat re, Rat im])`; anything else
gives `(QIZero, false)`, modelled as `none`. -/
def qiFromValue : Value → Option QI
  | .tag (.text [113, 105]) (.seq (.rat re :: .rat im :: _)) => some ⟨re, im⟩
  | _ => none

/-- Go `big.Int.Int64()`: the low 64 bits, interpreted as a signed int64. -/
def wrap64 (z : Int) : Int :=
  (z + 9223372036854775808) % 18446744073709551616 - 9223372036854775808

/-- Outcome of a fallible parse in Go: a result, a `(nil, false)` return, or
a runtime panic. -/
inductive MFV where
  | ok (m : Matrix)
  | fail
  | panics
deriving DecidableEq, Repr

/-- Outcome of the entry-write loop. -/
inductive FillRes where
  | ok (data : List QI)
  | fail
  | panics
deriving DecidableEq, Repr

/-- The write loop of `MatrixFromValue`: parse each entry, then store it at
index `i`.  `m.Data[i] = qi` panics as soon as `i` reaches the allocated
length `n`.  (The parse of item `i` happens before the write, so a bad
entry at the overflow index still returns `(nil, false)` first.) -/
def mfvFill (n : Nat) : List Value → Nat → List QI → FillRes
  | [], _, data => .ok data
  | it :: rest, i, data =>
    match qiFromValue it with
    | none => .fail
    | some q => if i < n then mfvFill n rest (i + 1) (data.set i q) else .panics

/-- Parser `MatrixFromValue` parses `Tag("matrix", Seq[Int rows, Int cols,
Seq(entries)])`.  The declared shape is *not* validated against the entry
count: `NewMatrix(rows, cols)` allocates `rows·cols` zero entries (Go's
`make` panics when that product is negative) and the entries are written
in order, panicking past the end. -/
def MatrixFromValue : Value → MFV
  | .tag (.text [109, 97, 116, 114, 105, 120])  -- "matrix"
      (.seq (.int rows :: .int cols :: .seq items :: _)) =>
    let r := wrap64 rows
    let c := wrap64 cols
    let n := wrap64 (r * c)
    if n < 0 then .panics
    else
      match mfvFill n.toNat items 0 (List.replicate n.toNat QIZero) with
      | .ok data => .ok ⟨r, c, data⟩
      | .fail => .fail
      | .panics => .panics
  | _ => .fail

/-! ## The circuit interpreter (`Executor.Execute`)

The interpreter returns `(*Matrix, error)`.  Outcomes:
* `ok m` — a `(m, nil)` return; `m = none` is a *nil* result pointer
  (which the source can produce with a nil error: a silent nil);
* `err e` — a `(nil, fmt.Errorf(e))` return;
* `panics` — a Go runtime panic (nil-pointer dereference);
* `fuelOut` — artifact of the fuel-indexed embedding of the unbounded Go
  recursion; every claim is stated with enough fuel that it never arises.
The store is threaded through exactly as the Go receiver's pointer is. -/

inductive ExecResult where
  | ok (m : Option Matrix)
  | err (e : String)
  | panics
  | fuelOut
deriving DecidableEq, Repr

/-- Function `applySwap` builds the identity permutation matrix `P` on
`objectDim(domain)` and computes `MatMul(MatMul(P, input), Dagger(P))`.
`MatMul` on a nil operand dereferences it: a panic. -/
def applySwap (domain _codomain : Object) (input : Option Matrix) : ExecResult :=
  let n : Int := objectDim domain
  match input with
  | none => .panics
  | some inp =>
    match MatMul (Identity n) inp with
    | none => .panics
    | some m =>
      match MatMul m (Dagger (Identity n)) with
      | none => .ok none
      | some r => .ok (some r)

/-- Function `applyDiscard` returns the full trace as a 1×1 matrix. -/
def applyDiscard (_domain : Object) (input : Option Matrix) : ExecResult :=
  match input with
  | none => .panics
  | some inp => .ok (some ⟨1, 1, [Trace inp]⟩)

/-- Function `applyUnitary`: `U ρ U†`, with `U` parsed from `c.Data`. -/
def applyUnitary (c : Circuit) (input : Option Matrix) : ExecResult :=
  match MatrixFromValue c.data with
  | .fail => .err "unitary data must be matrix"
  | .panics => .panics
  | .ok U =>
    match input with
    | none => .panics
    | some inp =>
      match MatMul U inp with
      | none => .panics
      | some m =>
        match MatMul m (Dagger U) with
        | none => .ok none
        | some r => .ok (some r)

/-- The Choi loop reads `input.Data[l*input.Cols + k]` for every
`k, l < inDim`; this check is exactly "no such read is out of range". -/
def choiReadsOk (inp : Matrix) (inDim : Nat) : Bool :=
  (List.range inDim).all (fun l => (List.range inDim).all (fun k =>
    decide (0 ≤ (l : Int) * inp.cols + k ∧ (l : Int) * inp.cols + k < inp.data.length)))

/-- Entry `(i, j)` of the Choi application: the double loop over `k, l`
accumulating `ρ[l,k] · J[k·outDim+i, l·outDim+j]`, guarded by the bounds
check on `J`. -/
def choiEntry (inp : Option Matrix) (J : Matrix) (inDim outDim i j : Nat) : QI :=
  (List.range inDim).foldl (fun sum k =>
    (List.range inDim).foldl (fun sum l =>
      let rhoEntry := match inp with
        | some m => m.get l k
        | none => QIZero
      let jRow : Int := k * outDim + i
      let jCol : Int := l * outDim + j
      if jRow < J.rows ∧ jCol < J.cols then QIAdd sum (QIMul rhoEntry (J.get jRow jCol))
      else sum) sum) QIZero

/-- Function `applyChoi`.  The nested loops dereference `input` (and index into its
data) only when both dimensions are positive; a nil or too-small input then
panics, exactly as the flat `Data[l*Cols+k]` access does in Go. -/
def applyChoi (c : Circuit) (input : Option Matrix) : ExecResult :=
  match MatrixFromValue c.data with
  | .fail => .err "choi data must be matrix"
  | .panics => .panics
  | .ok J =>
    let inDim : Nat := objectDim c.domain
    let outDim : Nat := objectDim c.codomain
    if outDim = 0 ∨ inDim = 0 then
      .ok (some (mkMat outDim outDim (fun i j => choiEntry input J inDim outDim i j)))
    else
      match input with
      | none => .panics
      | some inp =>
        if choiReadsOk inp inDim then
          .ok (some (mkMat outDim outDim (fun i j => choiEntry input J inDim outDim i j)))
        else .panics

/-- Function `applyPrepare`: clone the state parsed from `c.Data`; input ignored. -/
def applyPrepare (c : Circuit) : ExecResult :=
  match MatrixFromValue c.data with
  | .fail => .err "prepare data must be matrix"
  | .panics => .panics
  | .ok rho => .ok (some rho.clone)

/-- The body of `Executor.Execute`, dispatching on `c.Prim`; `recur` is the
recursive call. -/
def execStep (recur : Store → Circuit → Option Matrix → Store × ExecResult)
    (s : Store) (c : Circuit) (input : Option Matrix) : Store × ExecResult :=
    match c.prim with
    | .id =>
      match input with
      | none => (s, .panics)
      | some m => (s, .ok (some m.clone))
    | .compose =>
      match c.children with
      | [k0, k1] =>
        match s.get k0 with
        | none => (s, .err "child 0 not found")
        | some f =>
          match s.get k1 with
          | none => (s, .err "child 1 not found")
          | some g =>
            match recur s f input with
            | (s1, .ok m) => recur s1 g m
            | (s1, r) => (s1, r)
      | _ => (s, .err "compose requires 2 children")
    | .tensor =>
      match c.children with
      | [k0, k1] =>
        match s.get k0 with
        | none => (s, .err "child 0 not found")
        | some f =>
          match s.get k1 with
          | none => (s, .err "child 1 not found")
          | some g =>
            match recur s f (some (Identity (objectDim f.domain))) with
            | (s1, .ok fm) =>
              match recur s1 g (some (Identity (objectDim g.domain))) with
              | (s2, .ok gm) =>
                match fm, gm with
                | some a, some b => (s2, .ok (some (Kronecker a b)))
                | _, _ => (s2, .panics)
              | (s2, r) => (s2, r)
            | (s1, r) => (s1, r)
      | _ => (s, .err "tensor requires 2 children")
    | .swap => (s, applySwap c.domain c.codomain input)
    | .discard => (s, applyDiscard c.domain input)
    | .zero =>
      (s, .ok (some (NewMatrix (objectDim c.codomain) (objectDim c.codomain))))
    | .unitary => (s, applyUnitary c input)
    | .choi => (s, applyChoi c input)
    | .prepare => (s, applyPrepare c)
    | .add =>
      match c.children with
      | [k0, k1] =>
        match s.get k0 with
        | none => (s, .err "child 0 not found")
        | some f =>
          match s.get k1 with
          | none => (s, .err "child 1 not found")
          | some g =>
            match recur s f input with
            | (s1, .ok fm) =>
              match recur s1 g input with
              | (s2, .ok gm) =>
                match fm, gm with
                | some a, some b =>
                  match MatAdd a b with
                  | none => (s2, .ok none)
                  | some r => (s2, .ok (some r))
                | _, _ => (s2, .panics)
              | (s2, r) => (s2, r)
            | (s1, r) => (s1, r)
      | _ => (s, .err "add requires 2 children")
    | .scale =>
      match c.children with
      | [k0] =>
        match c.data with
        | .rat r =>
          match s.get k0 with
          | none => (s, .err "child not found")
          | some child =>
            match recur s child input with
            | (s1, .ok m) =>
              match m with
              | none => (s1, .panics)
              | some mm => (s1, .ok (some (MatScale mm r)))
            | (s1, res) => (s1, res)
        | _ => (s, .err "scale data must be Rat")
      | _ => (s, .err "scale requires 1 child")
    | p => (s, .err ("unsupported primitive: " ++ toString p.toInt))

/-- Function `Executor.Execute`: the step body tied by a recursion budget standing in
for Go's unbounded call stack. -/
def exec : Nat → Store → Circuit → Option Matrix → Store × ExecResult
  | 0, s, _, _ => (s, .fuelOut)
  | fuel + 1, s, c, input => execStep (exec fuel) s c input

/-! ## The `.qmb` binary container -/

/-- The container record.  `magic` is a Go `[4]byte` and `entrypoint` a
`[32]byte`; their lengths are fixed by the type in Go, so theorems about
the container carry the corresponding length hypotheses. -/
structure EmbeddedBinary where
  magic : List Nat
  entrypoint : List Nat
  name : List Nat
  version : List Nat
  storeData : List Nat
deriving DecidableEq, Repr

/-- A `uint32` length written big-endian (`byte(n >> 24)` … truncate). -/
def be32 (n : Nat) : List Nat :=
  [n >>> 24 % 256, n >>> 16 % 256, n >>> 8 % 256, n % 256]

/-- Function `EmbeddedBinary.Encode`: magic, entrypoint, length-prefixed name and
version, then the raw store payload. -/
def encodeBinary (e : EmbeddedBinary) : List Nat :=
  e.magic ++ e.entrypoint ++ be32 e.name.length ++ e.name ++
    be32 e.version.length ++ e.version ++ e.storeData

/-- Read the big-endian `uint32` at offset `off`. -/
def readBe32 (data : List Nat) (off : Nat) : Nat :=
  data.getD off 0 * 16777216 + data.getD (off + 1) 0 * 65536 +
    data.getD (off + 2) 0 * 256 + data.getD (off + 3) 0

/-- Function `Decode`: check the magic, then read entrypoint, name, version, and take
the remainder as store payload. -/
def decodeBinary (data : List Nat) : Except String EmbeddedBinary :=
  if data.length < 4 then .error "data too short"
  else if ¬(data.getD 0 0 = 81 ∧ data.getD 1 0 = 77 ∧ data.getD 2 0 = 66 ∧
            data.getD 3 0 = 1) then
    .error "invalid magic: expected QMB\\x01"
  else if data.length < 36 then .error "data too short for entrypoint"
  else
    let nameOff := 36
    if data.length < nameOff + 4 then .error "data too short for name length"
    else
      let nameLen := readBe32 data nameOff
      if data.length < nameOff + 4 + nameLen then .error "data too short for name"
      else
        let verOff := nameOff + 4 + nameLen
        if data.length < verOff + 4 then .error "data too short for version length"
        else
          let verLen := readBe32 data verOff
          if data.length < verOff + 4 + verLen then .error "data too short for version"
          else
            .ok { magic := data.take 4
                  entrypoint := (data.drop 4).take 32
                  name := (data.drop (nameOff + 4)).take nameLen
                  version := (data.drop (verOff + 4)).take verLen
                  storeData := data.drop (verOff + 4 + verLen) }

/-! ## The Runner -/

/-- The store-payload decoder of the baseline loader.  It only recognizes
the four single-byte encodings; every other payload is wrapped whole into a
`Bytes` value.  (The Go function's error result is always nil.) -/
def decodeStoreValue (data : List Nat) : Value :=
  match data with
  | [] => .nil
  | b :: _ =>
    if b = 0 then .int 0
    else if b = 240 then .nil
    else if b = 224 then .bool false
    else if b = 225 then .bool true
    else .bytes data

/-- Function `importValues`: a Seq is ingested item by item, anything else as one
value — in both cases via `PutValue` only. -/
def importValues (s : Store) (v : Value) : Store :=
  match v with
  | .seq items => items.foldl (fun s item => (s.putValue item).2) s
  | _ => (s.putValue v).2

/-- Function `loadStoreData`: empty payload is a no-op, otherwise decode and import. -/
def loadStoreData (s : Store) (data : List Nat) : Store :=
  if data = [] then s
  else importValues s (decodeStoreValue data)

structure Runner where
  binary : EmbeddedBinary
  store : Store

/-- Function `NewRunner`: decode the container, then load the store payload into a
fresh store. -/
def newRunner (data : List Nat) : Except String Runner :=
  match decodeBinary data with
  | .error e => .error ("decode failed: " ++ e)
  | .ok b => .ok ⟨b, loadStoreData emptyStore b.storeData⟩

/-- Function `Runner.Run`: resolve the entrypoint circuit and execute it. -/
def runnerRun (r : Runner) (input : Option Matrix) (fuel : Nat) : ExecResult :=
  match r.store.get r.binary.entrypoint with
  | none => .err "entrypoint circuit not found"
  | some c => (exec fuel r.store c input).2

/-! ## Helper lemmas -/

/-- Norm `|q|² = 0` exactly when both components vanish. -/
theorem qiNormSq_eq_zero_iff (q : QI) : QINormSq q = 0 ↔ q = QIZero := by
  constructor
  · intro h
    unfold QINormSq at h
    have h1 : q.re = 0 := by nlinarith [mul_self_nonneg q.re, mul_self_nonneg q.im]
    have h2 : q.im = 0 := by nlinarith [mul_self_nonneg q.re, mul_self_nonneg q.im]
    cases q
    simp_all [QIZero]
  · intro h
    subst h
    unfold QINormSq QIZero
    norm_num

/-- Reading entry `(i, j)` of a freshly built matrix gives the generator. -/
theorem mkMat_get (r c : Int) (f : Nat → Nat → QI) (i j : Nat)
    (hi : i < r.toNat) (hj : j < c.toNat) :
    (mkMat r c f).get i j = f i j := by
  have hc : c = (c.toNat : Int) := by omega
  have hr : r = (r.toNat : Int) := by omega
  unfold mkMat Matrix.get
  simp only
  have hidx : ((i : Int) * c + j).toNat = i * c.toNat + j := by
    rw [hc]
    rw [show ((i : Int) * ((c.toNat : Nat) : Int) + (j : Int)) =
        ((i * c.toNat + j : Nat) : Int) by push_cast; ring]
    exact Int.toNat_natCast _
  rw [hidx]
  have hN : (r * c).toNat = r.toNat * c.toNat := by
    rw [hc, hr]
    rw [show (((r.toNat : Nat) : Int) * ((c.toNat : Nat) : Int)) =
        ((r.toNat * c.toNat : Nat) : Int) by push_cast; ring]
    exact Int.toNat_natCast _
  have hlt : i * c.toNat + j < (r * c).toNat := by
    rw [hN]
    calc i * c.toNat + j < i * c.toNat + c.toNat := by omega
    _ = (i + 1) * c.toNat := by ring
    _ ≤ r.toNat * c.toNat := Nat.mul_le_mul_right _ (by omega)
  rw [List.getD_eq_getElem?_getD, List.getElem?_map, List.getElem?_range hlt]
  simp only [Option.map_some', Option.getD_some]
  congr 1
  · rw [Nat.mul_comm i c.toNat, Nat.mul_add_div (by omega), Nat.div_eq_of_lt hj]
    omega
  · rw [Nat.mul_comm i c.toNat, Nat.mul_add_mod, Nat.mod_eq_of_lt hj]

/-! ## Claim C7 — Gaussian-rational inversion -/

/-- C7: `inv(q)` fails (its boolean is `false`, the `DivisionByZero` case)
iff `norm_squared(q) = 0`, which holds iff `q` is the zero Gaussian
rational; and for `q ≠ 0`, `q · inv(q) = 1`. -/
theorem claim_C7_qi_inverse (q : QI) :
    ((QIInv q).2 = false ↔ QINormSq q = 0) ∧
    (QINormSq q = 0 ↔ q = QIZero) ∧
    (q ≠ QIZero → QIMul q (QIInv q).1 = QIOne) := by
  refine ⟨?_, qiNormSq_eq_zero_iff q, ?_⟩
  · unfold QIInv
    by_cases h : QINormSq q = 0 <;> simp [h]
  · intro hq
    have hn : QINormSq q ≠ 0 := fun h => hq ((qiNormSq_eq_zero_iff q).mp h)
    unfold QIInv
    simp only [hn, if_false]
    unfold QIMul QIConj QIOne
    have hns : QINormSq q = q.re * q.re + q.im * q.im := rfl
    rw [QI.mk.injEq]
    rw [hns] at hn
    constructor
    · simp only
      rw [hns]
      field_simp [hn]
    · simp only
      rw [hns]
      field_simp [hn]
      ring

/-- Witness for C7 at the imaginary unit `i`. -/
theorem claim_C7_qi_inverse_witness :
    QII ≠ QIZero ∧ QIMul QII (QIInv QII).1 = QIOne :=
  ⟨by decide, (claim_C7_qi_inverse QII).2.2 (by decide)⟩

/-! ## Claim C2 — equality–digest agreement

The canonical encoding is *not* injective: because `Int(64)` encodes to the
single byte `0x40`, which is also the marker byte of the multi-byte positive
integer form, and `Rat(0)` encodes to `0x90 0x00`, a prefix of every
non-negative rational encoding, two different five-element sequences can
produce the same concatenation of element encodings. -/

def collisionA : Value := .seq [.int 144, .int 0, .int 64, .int 1, .rat 0]

def collisionB : Value := .seq [.int 64, .int 1, .rat 0, .int 144, .int 0]

/-- C2 fails on the code: `collisionA` and `collisionB` are structurally
unequal Values with byte-identical canonical encodings, hence equal QGIDs.
(The spec requires `equal(a,b) ⇔ qgid(a) = qgid(b)`, i.e. injectivity of
the encoding on value-equivalence classes.) -/
theorem claim_C2_encoding_collision :
    valueEqual collisionA collisionB = false ∧
    encodeValue collisionA = encodeValue collisionB ∧
    QGID collisionA = QGID collisionB := by
  have henc : encodeValue collisionA = encodeValue collisionB := by
    with_unfolding_all rfl
  exact ⟨by with_unfolding_all rfl, henc, congrArg sha256 henc⟩

/-! ## Claim C3 — the interpreter can panic and can return a silent nil

`applySwap` computes `MatMul(MatMul(P, input), Dagger(P))`.  When the input
row count differs from the domain dimension the inner product is nil and
the outer `MatMul` dereferences it: a Go runtime panic, not a structured
error.  When only the column count differs, the outer product is nil and
`Execute` returns `(nil, nil)`: a silent nil result. -/

/-- A `Swap` circuit on the unit-dimension domain `[1]` (dimension 1). -/
def swapDemo : Circuit := ⟨⟨[1]⟩, ⟨[1]⟩, .swap, .nil, []⟩

/-- C3 fails on the code: executing `swapDemo` on a 2×2 input panics
(nil-pointer dereference inside `applySwap`), and executing it on a 1×2
input returns a nil matrix with a nil error. -/
theorem claim_C3_swap_panics_and_silent_nil :
    (exec 1 emptyStore swapDemo (some (Identity 2))).2 = .panics ∧
    (exec 1 emptyStore swapDemo (some (NewMatrix 1 2))).2 = .ok none := by
  constructor <;> with_unfolding_all rfl

/-! ## Claim C4 — matrix multiplication contract -/

/-- C4: `multiply(A, B)` fails (returns the nil failure result, the
taxonomy's `ShapeMismatch`) exactly when `A.cols ≠ B.rows`; otherwise it
returns the product matrix of shape `(A.rows, B.cols)` whose `(i, j)` entry
is `Σₖ A[i,k]·B[k,j]`. -/
theorem claim_C4_matmul_shape (A B : Matrix) :
    (MatMul A B = none ↔ A.cols ≠ B.rows) ∧
    (∀ C, MatMul A B = some C →
      C.rows = A.rows ∧ C.cols = B.cols ∧
      ∀ i j : Nat, i < A.rows.toNat → j < B.cols.toNat →
        C.get i j = qiSum A.cols.toNat (fun k => QIMul (A.get i k) (B.get k j))) := by
  unfold MatMul
  by_cases h : A.cols = B.rows
  · rw [if_neg (by simp [h])]
    refine ⟨⟨fun hx => by simp at hx, fun hx => absurd h hx⟩, ?_⟩
    intro C hC
    have hC2 : C = mkMat A.rows B.cols
        (fun i j => qiSum A.cols.toNat (fun k => QIMul (A.get i k) (B.get k j))) :=
      (Option.some.inj hC).symm
    subst hC2
    exact ⟨rfl, rfl, fun i j hi hj => mkMat_get _ _ _ i j hi hj⟩
  · rw [if_pos h]
    exact ⟨⟨fun _ => h, fun _ => rfl⟩, fun C hC => by simp at hC⟩

/-! ## Claim C9 — execution never writes the store -/

/-- One unfolding of the interpreter body preserves the store, provided the
recursive calls do. -/
theorem execStep_frame (recur : Store → Circuit → Option Matrix → Store × ExecResult)
    (hrec : ∀ s c input, (recur s c input).1 = s)
    (s : Store) (c : Circuit) (input : Option Matrix) :
    (execStep recur s c input).1 = s := by
  unfold execStep
  cases hcp : c.prim <;> simp only
  all_goals (first | rfl | ((repeat' split) <;> simp_all [hrec, Prod.ext_iff]))

/-- C9: for every circuit, input matrix, store, and recursion budget,
`Execute` returns the store it was given — no circuit or value entry is
added, removed, or modified — whether it produces a result, an error, or a
panic.  (Matrices, including the input, are immutable values of the
embedding; the source likewise never writes through `input`.) -/
theorem claim_C9_execute_preserves_store (fuel : Nat) (s : Store) (c : Circuit)
    (input : Option Matrix) : (exec fuel s c input).1 = s := by
  induction fuel generalizing s c input with
  | zero => rfl
  | succ n ih => exact execStep_frame (exec n) ih s c input

/-- Witness for C4: a 1×2 by 2×1 product, and the 2×1 by 2×1 mismatch. -/
theorem claim_C4_matmul_shape_witness :
    (MatMul ⟨2, 1, [QIOne, QIOne]⟩ ⟨2, 1, [QIOne, QIOne]⟩ = none) ∧
    (∀ C, MatMul ⟨1, 2, [QIOne, QII]⟩ ⟨2, 1, [QII, QIOne]⟩ = some C →
      C.rows = 1 ∧ C.cols = 1) := by
  constructor
  · exact (claim_C4_matmul_shape ⟨2, 1, [QIOne, QIOne]⟩ ⟨2, 1, [QIOne, QIOne]⟩).1.mpr
      (by decide)
  · intro C hC
    have h := (claim_C4_matmul_shape ⟨1, 2, [QIOne, QII]⟩ ⟨2, 1, [QII, QIOne]⟩).2 C hC
    exact ⟨h.1, h.2.1⟩

/-! ## Claim C5 — Compose semantics -/

/-- C5: on a `Compose` circuit, a child count other than two yields the
`BadChildren` error ("compose requires 2 children"); an unresolvable child
QGID yields the `MissingReference` error ("child 0/1 not found"); and with
both children resolved to `f` and `g`, the result is
`execute(g, execute(f, input))`, with an error from `f` propagated
unchanged. -/
theorem claim_C5_compose (fuel : Nat) (s : Store) (c : Circuit) (input : Option Matrix)
    (hp : c.prim = .compose) :
    (c.children.length ≠ 2 →
      exec (fuel + 1) s c input = (s, .err "compose requires 2 children")) ∧
    (∀ k0 k1, c.children = [k0, k1] →
      (s.get k0 = none → exec (fuel + 1) s c input = (s, .err "child 0 not found")) ∧
      (∀ f, s.get k0 = some f → s.get k1 = none →
        exec (fuel + 1) s c input = (s, .err "child 1 not found")) ∧
      (∀ f g, s.get k0 = some f → s.get k1 = some g →
        (∀ s1 m, exec fuel s f input = (s1, .ok m) →
          exec (fuel + 1) s c input = exec fuel s1 g m) ∧
        (∀ s1 e, exec fuel s f input = (s1, .err e) →
          exec (fuel + 1) s c input = (s1, .err e)))) := by
  obtain ⟨dom, cod, prim, data, children⟩ := c
  replace hp : prim = Prim.compose := hp
  subst hp
  match children with
  | [] =>
    exact ⟨fun _ => rfl, fun k0 k1 hkk => by simp at hkk⟩
  | [a] =>
    exact ⟨fun _ => rfl, fun k0 k1 hkk => by simp at hkk⟩
  | a :: b :: x :: rest =>
    exact ⟨fun _ => rfl, fun k0 k1 hkk => by simp at hkk⟩
  | [a, b] =>
    constructor
    · intro hlen
      simp at hlen
    · intro k0 k1 hkk
      have ha : a = k0 := by injection hkk
      have hb : b = k1 := by
        have := (List.cons.injEq _ _ _ _).mp hkk
        simpa using this.2
      subst ha
      subst hb
      refine ⟨?_, ?_, ?_⟩
      · intro hget
        simp only [exec, execStep]
        rw [hget]
      · intro f hf hg
        simp only [exec, execStep]
        simp only [hf, hg]
      · intro f g hf hg
        constructor
        · intro s1 m hfe
          simp only [exec, execStep]
          simp only [hf, hg, hfe]
        · intro s1 e hfe
          simp only [exec, execStep]
          simp only [hf, hg, hfe]

/-- A concrete one-circuit store for the C5 witness: an `Id` circuit filed
under an arbitrary 32-byte key. -/
def idKey : Digest := List.replicate 32 0

def idDemo : Circuit := ⟨⟨[1]⟩, ⟨[1]⟩, .id, .nil, []⟩

def demoStore : Store := ⟨[(idKey, idDemo)], []⟩

def composeDemo : Circuit := ⟨⟨[1]⟩, ⟨[1]⟩, .compose, .nil, [idKey, idKey]⟩

/-- Witness for C5: the happy path on a concrete store. -/
theorem claim_C5_compose_witness :
    composeDemo.prim = Prim.compose ∧
    exec 2 demoStore composeDemo (some (Identity 1)) =
      exec 1 demoStore idDemo (some (Identity 1)) := by
  have h := (claim_C5_compose 1 demoStore composeDemo (some (Identity 1)) rfl).2
      idKey idKey rfl
  exact ⟨rfl, (h.2.2 idDemo idDemo rfl rfl).1 demoStore (some (Identity 1)) rfl⟩

/-! ## Claim C1 — Runner load / run

`loadStoreData` ingests the embedded payload through `PutValue` alone: the
circuits map of the freshly constructed store is never populated, so the
entrypoint circuit is unresolvable no matter what the payload contains, and
`Runner.Run` always fails. -/

theorem importValues_circuits (s : Store) (v : Value) :
    (importValues s v).circuits = s.circuits := by
  cases v with
  | seq items =>
    show (items.foldl (fun s item => (s.putValue item).2) s).circuits = s.circuits
    induction items generalizing s with
    | nil => rfl
    | cons x xs ih => exact ih ((s.putValue x).2)
  | int n => rfl
  | rat q => rfl
  | bytes bs => rfl
  | text bs => rfl
  | tag l p => rfl
  | bool b => rfl
  | nil => rfl

theorem loadStoreData_circuits (s : Store) (data : List Nat) :
    (loadStoreData s data).circuits = s.circuits := by
  unfold loadStoreData
  split
  · rfl
  · exact importValues_circuits s (decodeStoreValue data)

theorem store_get_of_circuits_nil (s : Store) (k : Digest) (h : s.circuits = []) :
    s.get k = none := by
  unfold Store.get mapGet
  rw [h]
  rfl

/-- C1 fails on the code: for every decodable binary — in particular one
whose store payload contains the canonical encoding of the entrypoint
circuit — the loaded runner's circuit map is empty, so `Run` returns the
"entrypoint circuit not found" error instead of executing the entrypoint. -/
theorem claim_C1_run_never_finds_entrypoint (data : List Nat) (r : Runner)
    (h : newRunner data = .ok r) (input : Option Matrix) (fuel : Nat) :
    runnerRun r input fuel = .err "entrypoint circuit not found" := by
  unfold newRunner at h
  cases hd : decodeBinary data with
  | error e => rw [hd] at h; simp at h
  | ok b =>
    rw [hd] at h
    replace h : Runner.mk b (loadStoreData emptyStore b.storeData) = r := by
      simpa using h
    subst h
    unfold runnerRun
    rw [store_get_of_circuits_nil _ _ (loadStoreData_circuits emptyStore b.storeData)]

/-- A decodable container whose payload is empty. -/
def demoBinC1 : EmbeddedBinary := ⟨[81, 77, 66, 1], List.range 32, [], [], []⟩

def demoRunnerC1 : Runner := ⟨demoBinC1, emptyStore⟩

/-- Witness for C1 on a concrete binary. -/
theorem claim_C1_run_never_finds_entrypoint_witness :
    newRunner (encodeBinary demoBinC1) = .ok demoRunnerC1 ∧
    runnerRun demoRunnerC1 none 1 = .err "entrypoint circuit not found" :=
  ⟨rfl, claim_C1_run_never_finds_entrypoint (encodeBinary demoBinC1) demoRunnerC1 rfl none 1⟩

/-! ## Claim C8 — the store key invariant

Stores reachable from empty by `Put` / `PutValue` sequences: every entry is
keyed by the QGID of the canonical encoding of what it stores (circuits via
their circuit-as-Value encoding), keys are never duplicated, and insertion
is idempotent. -/

/-- A store operation: `Put` of a circuit or `PutValue` of a value. -/
inductive StoreOp where
  | putC (c : Circuit)
  | putV (v : Value)

def applyOp (s : Store) (op : StoreOp) : Store :=
  match op with
  | .putC c => (s.put c).2
  | .putV v => (s.putValue v).2

def applyOps (ops : List StoreOp) : Store :=
  ops.foldl applyOp emptyStore

def StoreInv (s : Store) : Prop :=
  (∀ p ∈ s.circuits, p.1 = QGID (CircuitToValue p.2)) ∧
  (∀ p ∈ s.values, p.1 = QGID p.2) ∧
  (s.circuits.map Prod.fst).Nodup ∧
  (s.values.map Prod.fst).Nodup

theorem mapPut_mem {K V : Type} [DecidableEq K] (m : List (K × V)) (k : K) (v : V)
    (p : K × V) (hp : p ∈ mapPut m k v) : p = (k, v) ∨ p ∈ m := by
  unfold mapPut at hp
  split at hp
  · obtain ⟨q, hq, hpe⟩ := List.mem_map.mp hp
    by_cases h : q.1 = k
    · left
      rw [← hpe]
      simp [h]
    · right
      rw [← hpe]
      simpa [h] using hq
  · rcases List.mem_append.mp hp with h | h
    · right
      exact h
    · left
      simpa using h

theorem mapPut_keys_nodup {K V : Type} [DecidableEq K] (m : List (K × V)) (k : K)
    (v : V) (h : (m.map Prod.fst).Nodup) : ((mapPut m k v).map Prod.fst).Nodup := by
  unfold mapPut
  split
  · have he : (m.map (fun p => if p.1 = k then (k, v) else p)).map Prod.fst =
        m.map Prod.fst := by
      rw [List.map_map]
      apply List.map_congr_left
      intro p hp
      by_cases hpk : p.1 = k <;> simp [hpk]
    rw [he]
    exact h
  · rename_i hna
    rw [List.map_append]
    refine List.Nodup.append h (by simp) ?_
    intro a ha hb
    simp only [List.map_cons, List.map_nil, List.mem_singleton] at hb
    subst hb
    obtain ⟨p, hpm, hpk⟩ := List.mem_map.mp ha
    exact hna (List.any_eq_true.mpr ⟨p, hpm, by simp [hpk]⟩)

theorem mapPut_idem {K V : Type} [DecidableEq K] (m : List (K × V)) (k : K) (v : V) :
    mapPut (mapPut m k v) k v = mapPut m k v := by
  by_cases hany : m.any (fun p => decide (p.1 = k)) = true
  · have h1 : mapPut m k v = m.map (fun p => if p.1 = k then (k, v) else p) := by
      unfold mapPut
      rw [if_pos hany]
    obtain ⟨q, hqm, hqk⟩ := List.any_eq_true.mp hany
    have h2 : (mapPut m k v).any (fun p => decide (p.1 = k)) = true := by
      rw [h1]
      refine List.any_eq_true.mpr ⟨(k, v), List.mem_map.mpr ⟨q, hqm, by simp [of_decide_eq_true hqk]⟩, by simp⟩
    rw [h1] at h2 ⊢
    unfold mapPut
    rw [if_pos h2, List.map_map]
    apply List.map_congr_left
    intro p hp
    by_cases hpk : p.1 = k <;> simp [hpk]
  · have h1 : mapPut m k v = m ++ [(k, v)] := by
      unfold mapPut
      rw [if_neg hany]
    have h2 : (mapPut m k v).any (fun p => decide (p.1 = k)) = true := by
      rw [h1]
      exact List.any_eq_true.mpr ⟨(k, v), by simp⟩
    rw [h1] at h2 ⊢
    unfold mapPut
    rw [if_pos h2, List.map_append]
    congr 1
    · conv_rhs => rw [← List.map_id m]
      apply List.map_congr_left
      intro p hp
      have hnk : ¬ p.1 = k := by
        intro hpk
        exact hany (List.any_eq_true.mpr ⟨p, hp, by simp [hpk]⟩)
      simp [hnk]
    · simp

theorem applyOp_inv (s : Store) (op : StoreOp) (h : StoreInv s) :
    StoreInv (applyOp s op) := by
  obtain ⟨h1, h2, h3, h4⟩ := h
  cases op with
  | putC c =>
    refine ⟨?_, ?_, mapPut_keys_nodup _ _ _ h3, mapPut_keys_nodup _ _ _ h4⟩
    · intro p hp
      rcases mapPut_mem _ _ _ p hp with he | hm
      · subst he
        rfl
      · exact h1 p hm
    · intro p hp
      rcases mapPut_mem _ _ _ p hp with he | hm
      · subst he
        rfl
      · exact h2 p hm
  | putV v =>
    refine ⟨h1, ?_, h3, mapPut_keys_nodup _ _ _ h4⟩
    intro p hp
    rcases mapPut_mem _ _ _ p hp with he | hm
    · subst he
      rfl
    · exact h2 p hm

theorem foldl_inv (ops : List StoreOp) : ∀ s : Store, StoreInv s →
    StoreInv (ops.foldl applyOp s) := by
  induction ops with
  | nil => exact fun s h => h
  | cons op rest ih => exact fun s h => ih _ (applyOp_inv s op h)

/-- C8: every store reachable from the empty store satisfies the key
invariant (each circuit entry is keyed by the QGID of its circuit-as-Value
encoding, each value entry by the QGID of the value, with no duplicate
keys); the digest returned by `Put` depends only on the circuit; and
putting the same circuit twice yields the same store as putting it once. -/
theorem claim_C8_store_key_invariant :
    (∀ ops : List StoreOp, StoreInv (applyOps ops)) ∧
    (∀ (s : Store) (c : Circuit), (s.put c).1 = QGID (CircuitToValue c)) ∧
    (∀ (s : Store) (c : Circuit), (((s.put c).2).put c).2 = (s.put c).2) := by
  refine ⟨?_, fun s c => rfl, ?_⟩
  · intro ops
    exact foldl_inv ops emptyStore ⟨by simp [emptyStore], by simp [emptyStore], by simp [emptyStore], by simp [emptyStore]⟩
  · intro s c
    unfold Store.put
    simp only
    rw [mapPut_idem, mapPut_idem]

/-! ## Claim C10 — `MatrixFromValue` does not validate the declared shape -/

/-- Conversion `Int64()` is the identity on the int64 range. -/
theorem wrap64_id (z : Int) (h1 : 0 ≤ z) (h2 : z < 9223372036854775808) :
    wrap64 z = z := by
  unfold wrap64
  omega

/-- The write loop succeeds when the items fit, leaving every slot past the
last written item untouched. -/
theorem mfvFill_ok (items : List Value) (n : Nat) :
    ∀ (i : Nat) (data : List QI),
    (∀ v ∈ items, (qiFromValue v).isSome) →
    i + items.length ≤ n → data.length = n →
    mfvFill n items i data =
      .ok (data.take i ++ items.map (fun v => (qiFromValue v).getD QIZero) ++
           data.drop (i + items.length)) := by
  induction items with
  | nil =>
    intro i data hall hle hdl
    simp [mfvFill]
  | cons it rest ih =>
    intro i data hall hle hdl
    obtain ⟨q, hq⟩ := Option.isSome_iff_exists.mp (hall it (by simp))
    simp only [mfvFill, hq]
    have hilt : i < n := by
      simp only [List.length_cons] at hle
      omega
    rw [if_pos hilt]
    rw [ih (i + 1) (data.set i q) (fun v hv => hall v (by simp [hv]))
        (by simp only [List.length_cons] at hle; omega) (by simp [hdl])]
    have hidata : i < data.length := by omega
    rw [List.set_eq_take_cons_drop q hidata]
    have hTlen : (data.take i).length = i := by
      rw [List.length_take]
      omega
    simp only [List.take_append_eq_append_take, List.drop_append_eq_append_drop, hTlen,
      List.take_take]
    have e1 : (i + 1) ⊓ i = i := by omega
    have e2 : i + 1 - i = 1 := by omega
    have e3 : i + 1 + rest.length - i = rest.length + 1 := by omega
    rw [e1, e2, e3]
    rw [show List.drop (i + 1 + rest.length) (List.take i data) = [] from
      List.drop_eq_nil_of_le (by rw [hTlen]; omega)]
    rw [List.drop_succ_cons, List.drop_drop]
    rw [List.take_succ_cons, List.take_zero]
    simp [hq]
    congr 1
    omega

/-- The write loop panics as soon as the index reaches the allocation. -/
theorem mfvFill_panics (items : List Value) (n : Nat) :
    ∀ (i : Nat) (data : List QI),
    (∀ v ∈ items, (qiFromValue v).isSome) →
    n < i + items.length → i ≤ n →
    mfvFill n items i data = .panics := by
  induction items with
  | nil =>
    intro i data _ hge hi
    simp at hge
    omega
  | cons it rest ih =>
    intro i data hall hge hi
    obtain ⟨q, hq⟩ := Option.isSome_iff_exists.mp (hall it (by simp))
    simp only [mfvFill, hq]
    by_cases hin : i < n
    · rw [if_pos hin]
      exact ih (i + 1) (data.set i q) (fun v hv => hall v (by simp [hv]))
        (by simp only [List.length_cons] at hge; omega) (by omega)
    · rw [if_neg hin]

/-- A well-labeled matrix Value with declared shape `r × c`. -/
def matVal (r c : Int) (items : List Value) : Value :=
  .tag (.text [109, 97, 116, 114, 105, 120]) (.seq [.int r, .int c, .seq items])

/-- C10: for a well-labeled matrix Value with non-negative in-range declared
shape and well-formed entries, the parse succeeds whenever the entries
sequence is *shorter* than `rows·cols`, zero-filling the remainder — the
shape is never validated against the entry count — and it is panic-free
exactly when the entries count is at most `rows·cols` (a longer sequence
writes past the end of the allocated data array). -/
theorem claim_C10_matrix_from_value (r c : Int) (items : List Value)
    (hr : 0 ≤ r) (hc : 0 ≤ c)
    (hr2 : r < 9223372036854775808) (hc2 : c < 9223372036854775808)
    (hrc : r * c < 9223372036854775808)
    (hall : ∀ v ∈ items, (qiFromValue v).isSome) :
    (items.length < (r * c).toNat →
      MatrixFromValue (matVal r c items) =
        .ok ⟨r, c, items.map (fun v => (qiFromValue v).getD QIZero) ++
                   List.replicate ((r * c).toNat - items.length) QIZero⟩) ∧
    (MatrixFromValue (matVal r c items) ≠ .panics ↔
      items.length ≤ (r * c).toNat) := by
  have hrcnn : 0 ≤ r * c := mul_nonneg hr hc
  have er : wrap64 r = r := wrap64_id r hr hr2
  have ec : wrap64 c = c := wrap64_id c hc hc2
  have erc : wrap64 (r * c) = r * c := wrap64_id _ hrcnn hrc
  have hbody : MatrixFromValue (matVal r c items) =
      (match mfvFill (r * c).toNat items 0 (List.replicate (r * c).toNat QIZero) with
       | .ok data => MFV.ok ⟨r, c, data⟩
       | .fail => MFV.fail
       | .panics => MFV.panics) := by
    show (let rr := wrap64 r
          let cc := wrap64 c
          let n := wrap64 (rr * cc)
          if n < 0 then MFV.panics
          else match mfvFill n.toNat items 0 (List.replicate n.toNat QIZero) with
            | .ok data => MFV.ok ⟨rr, cc, data⟩
            | .fail => MFV.fail
            | .panics => MFV.panics) = _
    simp only [er, ec, erc]
    rw [if_neg (by omega : ¬ r * c < 0)]
  constructor
  · intro hlt
    rw [hbody]
    rw [mfvFill_ok items (r * c).toNat 0 (List.replicate (r * c).toNat QIZero) hall
      (by omega) (by simp)]
    simp [List.drop_replicate]
  · rw [hbody]
    constructor
    · intro hne
      by_contra hgt
      rw [mfvFill_panics items (r * c).toNat 0 (List.replicate (r * c).toNat QIZero)
        hall (by omega) (by omega)] at hne
      exact hne rfl
    · intro hle
      rw [mfvFill_ok items (r * c).toNat 0 (List.replicate (r * c).toNat QIZero) hall
        (by omega) (by simp)]
      simp

/-! ## Claim C6 — binary container round-trip -/

theorem getD_drop (l : List Nat) (m i : Nat) :
    (l.drop m).getD i 0 = l.getD (m + i) 0 := by
  simp [List.getD_eq_getElem?_getD, List.getElem?_drop]

theorem readBe32_drop (l : List Nat) (off : Nat) :
    readBe32 l off = readBe32 (l.drop off) 0 := by
  unfold readBe32
  rw [getD_drop l off 0, getD_drop l off 1, getD_drop l off 2, getD_drop l off 3]
  simp

theorem readBe32_be32 (k : Nat) (rest : List Nat) (hk : k < 4294967296) :
    readBe32 (be32 k ++ rest) 0 = k := by
  unfold readBe32 be32
  simp only [List.cons_append, List.getD_cons_zero, List.getD_cons_succ]
  rw [Nat.shiftRight_eq_div_pow, Nat.shiftRight_eq_div_pow, Nat.shiftRight_eq_div_pow]
  omega

/-- C6 (amended): `decode(encode(c))` reproduces the container
field-for-field for every container whose magic is exactly `QMB\x01`
(and whose fixed-size fields have their Go sizes: a 32-byte entrypoint,
name and version shorter than 2³², as the header stores 32-bit lengths).
Containers with a different magic are rejected by `decode` — see the
counterexample. -/
theorem claim_C6_roundtrip (b : EmbeddedBinary)
    (hm : b.magic = [81, 77, 66, 1]) (he : b.entrypoint.length = 32)
    (hn : b.name.length < 4294967296) (hv : b.version.length < 4294967296) :
    decodeBinary (encodeBinary b) = .ok b := by
  obtain ⟨mg, ep, nm, vr, sd⟩ := b
  replace hm : mg = [81, 77, 66, 1] := hm
  replace he : ep.length = 32 := he
  replace hn : nm.length < 4294967296 := hn
  replace hv : vr.length < 4294967296 := hv
  subst hm
  set L := encodeBinary ⟨[81, 77, 66, 1], ep, nm, vr, sd⟩ with hLdef
  have hL : L = [81, 77, 66, 1] ++
      (ep ++ (be32 nm.length ++ (nm ++ (be32 vr.length ++ (vr ++ sd))))) := by
    rw [hLdef]
    simp [encodeBinary, List.append_assoc]
  have hlen : L.length = 44 + nm.length + vr.length + sd.length := by
    rw [hL]
    simp [be32, he]
    omega
  have hd4 : L.drop 4 = ep ++ (be32 nm.length ++ (nm ++ (be32 vr.length ++ (vr ++ sd)))) := by
    rw [hL]
    rfl
  have hd36 : L.drop 36 = be32 nm.length ++ (nm ++ (be32 vr.length ++ (vr ++ sd))) := by
    have : L.drop 36 = (L.drop 4).drop 32 := by
      rw [List.drop_drop]
    rw [this, hd4, List.drop_left' he]
  have hd40 : L.drop 40 = nm ++ (be32 vr.length ++ (vr ++ sd)) := by
    have h1 : L.drop 40 = (L.drop 36).drop 4 := by
      rw [List.drop_drop]
    rw [h1, hd36, List.drop_left' (by simp [be32])]
  have hdVer0 : L.drop (40 + nm.length) = be32 vr.length ++ (vr ++ sd) := by
    have h1 : L.drop (40 + nm.length) = (L.drop 40).drop nm.length := by
      rw [List.drop_drop]
    rw [h1, hd40, List.drop_left' rfl]
  have hdVer4 : L.drop (44 + nm.length) = vr ++ sd := by
    have h1 : L.drop (44 + nm.length) = (L.drop (40 + nm.length)).drop 4 := by
      rw [List.drop_drop]
      congr 1
      omega
    rw [h1, hdVer0, List.drop_left' (by simp [be32])]
  have hdSd : L.drop (44 + nm.length + vr.length) = sd := by
    have h1 : L.drop (44 + nm.length + vr.length) = (L.drop (44 + nm.length)).drop vr.length := by
      rw [List.drop_drop]
    rw [h1, hdVer4, List.drop_left' rfl]
  have hreadN : readBe32 L 36 = nm.length := by
    rw [readBe32_drop, hd36, readBe32_be32 _ _ hn]
  have hreadV : readBe32 L (40 + nm.length) = vr.length := by
    rw [readBe32_drop, hdVer0, readBe32_be32 _ _ hv]
  have htake4 : L.take 4 = [81, 77, 66, 1] := by
    rw [hL]
    rfl
  have htakeEp : (L.drop 4).take 32 = ep := by
    rw [hd4]
    exact List.take_left' he
  have htakeNm : (L.drop 40).take nm.length = nm := by
    rw [hd40]
    exact List.take_left' rfl
  have htakeVr : (L.drop (44 + nm.length)).take vr.length = vr := by
    rw [hdVer4]
    exact List.take_left' rfl
  have hg0 : L.getD 0 0 = 81 := by rw [hL]; rfl
  have hg1 : L.getD 1 0 = 77 := by rw [hL]; rfl
  have hg2 : L.getD 2 0 = 66 := by rw [hL]; rfl
  have hg3 : L.getD 3 0 = 1 := by rw [hL]; rfl
  simp only [decodeBinary]
  rw [if_neg (by omega)]
  rw [if_neg (not_not_intro ⟨hg0, hg1, hg2, hg3⟩)]
  rw [if_neg (by omega)]
  rw [if_neg (by omega)]
  rw [hreadN]
  rw [if_neg (by omega)]
  rw [show (36 : Nat) + 4 = 40 from rfl]
  rw [hreadV]
  rw [if_neg (by omega)]
  rw [if_neg (by omega)]
  rw [show 40 + nm.length + 4 = 44 + nm.length from by omega]
  simp only [htake4, htakeEp, htakeNm, htakeVr, hdSd]

/-- A Gaussian-rational entry Value, `Tag("qi", Seq[Rat re, Rat im])`. -/
def qiVal (a b : Rat) : Value := .tag (.text [113, 105]) (.seq [.rat a, .rat b])

/-- Witness for C10: a 2×2 matrix Value carrying only three entries parses
into a matrix whose fourth entry is zero. -/
theorem claim_C10_matrix_from_value_witness :
    (∀ v ∈ [qiVal 1 0, qiVal 2 0, qiVal 3 0], (qiFromValue v).isSome) ∧
    MatrixFromValue (matVal 2 2 [qiVal 1 0, qiVal 2 0, qiVal 3 0]) =
      .ok ⟨2, 2, [⟨1, 0⟩, ⟨2, 0⟩, ⟨3, 0⟩, QIZero]⟩ := by
  have hall : ∀ v ∈ [qiVal 1 0, qiVal 2 0, qiVal 3 0], (qiFromValue v).isSome := by
    decide
  have h := (claim_C10_matrix_from_value 2 2 [qiVal 1 0, qiVal 2 0, qiVal 3 0]
    (by decide) (by decide) (by decide) (by decide) (by decide) hall).1 (by decide)
  refine ⟨hall, ?_⟩
  rw [h]
  rfl

/-- The container of scenario S5: entrypoint bytes 0..31, name
"test-binary", version "1.0.0", payload "test store data". -/
def demoS5 : EmbeddedBinary :=
  ⟨[81, 77, 66, 1], List.range 32,
   [116, 101, 115, 116, 45, 98, 105, 110, 97, 114, 121],
   [49, 46, 48, 46, 48],
   [116, 101, 115, 116, 32, 115, 116, 111, 114, 101, 32, 100, 97, 116, 97]⟩

/-- A container differing from the spec layout only in its magic bytes. -/
def badMagicBin : EmbeddedBinary := ⟨[0, 0, 0, 0], List.replicate 32 0, [], [], []⟩

/-- C6 as stated is false: a container whose magic field is not `QMB\x01`
does not round-trip — `decode(encode(c))` rejects it. -/
theorem claim_C6_roundtrip_counterexample :
    decodeBinary (encodeBinary badMagicBin) =
      .error "invalid magic: expected QMB\\x01" := by
  rfl

/-- Witness for the amended C6 at the concrete container of scenario S5. -/
theorem claim_C6_roundtrip_witness :
    demoS5.magic = [81, 77, 66, 1] ∧
    decodeBinary (encodeBinary demoS5) = .ok demoS5 :=
  ⟨rfl, claim_C6_roundtrip demoS5 rfl rfl (by decide) (by decide)⟩

end QBTM
